import Mathlib

/-!
Verification of the MemoryBridge semantic memory graph and retrieval engine.

This file gives a shallow embedding, in Lean 4, of the core algorithmic code of
the repository:

  src/ai/embeddings/semantic_graph.py
    get_era_from_date, cosine_similarity, build_semantic_graph,
    find_memory_clusters (with the union-find helpers)
  src/ai/embeddings/retrieval.py
    retrieve_top_k, format_retrieval_results

Modelling conventions:
  - Python floats are modelled as rationals.  All properties proved here are
    structural (dimension checks, ordering, counting, partition, threshold
    comparison, string formatting); none depends on rounding of binary
    floating point.
  - math.sqrt is modelled by a rational square root that is exact whenever
    the radicand is a perfect square of a rational (true for every concrete
    input used below) and, like math.sqrt on nonnegative floats, is zero
    exactly on zero.
  - Python exceptions are modelled with Except String; the ValueError raised
    by cosine_similarity on a dimension mismatch becomes Except.error with
    the same message text.
  - Python str is modelled by Lean String; Python string comparison
    (lexicographic by code point) is modelled by an executable lexicographic
    comparison on the underlying character lists.
  - list.sort(key=...) is a stable ascending sort by key.  It is modelled by
    List.insertionSort with the corresponding total preorder, which is the
    textbook stable sort.
  - Python dicts keyed by strings are modelled either by total functions
    updated pointwise (the union-find parent map, the era counter) or by
    insertion-ordered association lists (buckets of node ids, the final
    cluster mapping), matching the insertion-order iteration semantics of
    Python dicts.
-/

namespace MemoryBridge

/-! ## Small helpers: decimal rendering of naturals, string order, square root -/

/-- Characters of the decimal representation of a positive natural, most
significant digit first; the fuel argument only forces structural recursion
and is always instantiated with a number at least as large as the input. -/
def natStrAux : Nat → Nat → List Char
  | 0, _ => []
  | _ + 1, 0 => []
  | f + 1, m + 1 => natStrAux f ((m + 1) / 10) ++ [Nat.digitChar ((m + 1) % 10)]

/-- Decimal rendering of a natural number, modelling the Python str() of a
nonnegative int. -/
def natStr (n : Nat) : String :=
  if n = 0 then "0" else String.mk (natStrAux n n)

/-- Value of a list of decimal digit characters, modelling Python int() on a
string of digits. -/
def intOfDigits (l : List Char) : Nat :=
  l.foldl (fun a c => a * 10 + (c.toNat - 48)) 0

/-- Lexicographic comparison of character lists by code point; models how
Python compares the underlying strings. -/
def lexLe : List Char → List Char → Bool
  | [], _ => true
  | _ :: _, [] => false
  | c :: cs, d :: ds =>
    if c.toNat < d.toNat then true
    else if d.toNat < c.toNat then false
    else lexLe cs ds

/-- String comparison, lexicographic by code point, as used by Python sort
keys on strings. -/
def strLe (s t : String) : Bool := lexLe s.data t.data

/-- Natural square root by bounded search: the largest k at most fuel with
k * k at most n.  Structural, so it evaluates inside the kernel. -/
def natSqrtAux : Nat → Nat → Nat
  | 0, _ => 0
  | k + 1, n => if (k + 1) * (k + 1) ≤ n then k + 1 else natSqrtAux k n

/-- Natural square root (exact on perfect squares). -/
def natSqrt (n : Nat) : Nat := natSqrtAux n n

/-- Rational square root modelling math.sqrt.  Exact whenever numerator and
denominator are perfect squares, which holds for every concrete vector used
in this development; like math.sqrt on nonnegative floats it is zero exactly
on zero, which is the only property of square roots the code relies on. -/
def ratSqrt (q : ℚ) : ℚ := (natSqrt q.num.toNat : ℚ) / (natSqrt q.den : ℚ)

/-- Round-half-to-even to the nearest integer, the rounding used by the
Python built-in round(). -/
def roundHalfEven (x : ℚ) : ℤ :=
  let f := ⌊x⌋
  if x - f < 1 / 2 then f
  else if 1 / 2 < x - f then f + 1
  else if f % 2 = 0 then f else f + 1

/-- Python round(x, 4): round to 4 decimal places. -/
def round4 (x : ℚ) : ℚ := (roundHalfEven (x * 10000) : ℚ) / 10000

/-- Python format spec .4f applied to a rational: sign, integer part, dot,
and exactly four decimal digits. -/
def fmt4 (x : ℚ) : String :=
  let n := (roundHalfEven (|x| * 10000)).toNat
  let frac := natStr (n % 10000)
  (if x < 0 then "-" else "") ++ natStr (n / 10000) ++ "." ++
    String.mk (List.replicate (4 - frac.length) '0') ++ frac.data.asString

/-! ## Data types (semantic_graph.py) -/

/-- MemoryNode from semantic_graph.py: one photo caption with its
embedding. -/
structure MemoryNode where
  id : String
  text : String
  embedding : List ℚ
  date : String
  era : String
deriving DecidableEq

/-- Default node used only to give List.getD a value at indices that are
always in bounds. -/
def defaultNode : MemoryNode := ⟨"", "", [], "", ""⟩

/-- MemoryEdge from semantic_graph.py: a similarity edge between two memory
nodes; source_id is always the node with the lower list index. -/
structure MemoryEdge where
  source_id : String
  target_id : String
  similarity : ℚ
deriving DecidableEq

/-- RetrievalResult from retrieval.py: a single ranked retrieval hit. -/
structure RetrievalResult where
  node : MemoryNode
  score : ℚ
deriving DecidableEq

/-! ## Era classifier (get_era_from_date) -/

/-- ERA_DECADE_MAP from semantic_graph.py, as an association list. -/
def ERA_DECADE_MAP : List (String × String) :=
  [("1940", "1940s"), ("1950", "1950s"), ("1960", "1960s"), ("1970", "1970s"),
   ("1980", "1980s"), ("1990", "1990s"), ("2000", "2000s"), ("2010", "2010s"),
   ("2020", "2020s")]

/-- The unknown-era constant from semantic_graph.py. -/
def UNKNOWN_ERA : String := "unknown"

/-- Word characters of the regex escape for w, restricted to ASCII input:
letters, digits and the underscore. -/
def isWordChar (c : Char) : Bool := c.isAlpha || c.isDigit || c = '_'

/-- Match of the pattern b(d times 4)b of get_era_from_date at the current
position: four decimal digits, preceded (prev is the previous character, if
any) and followed by a word boundary. -/
def matchAt (prev : Option Char) : List Char → Bool
  | c1 :: c2 :: c3 :: c4 :: rest =>
    c1.isDigit && c2.isDigit && c3.isDigit && c4.isDigit &&
      (match prev with
       | none => true
       | some p => !isWordChar p) &&
      (match rest with
       | [] => true
       | r :: _ => !isWordChar r)
  | _ => false

/-- re.search for the year pattern: scan left to right and return the first
(leftmost) four-digit group found, exactly as re.search does. -/
def searchYear : Option Char → List Char → Option (List Char)
  | _, [] => none
  | prev, c :: rest =>
    if matchAt prev (c :: rest) then some ((c :: rest).take 4)
    else searchYear (some c) rest

/-- get_era_from_date from semantic_graph.py.  The int() conversion of the
captured group cannot fail because the group is four digits, so the
try/except around it is modelled by the direct conversion. -/
def get_era_from_date (date_str : String) : String :=
  if date_str = "" then UNKNOWN_ERA
  else
    match searchYear none date_str.data with
    | none => UNKNOWN_ERA
    | some year_str =>
      let year := intOfDigits year_str
      let decade_key := natStr (year / 10 * 10)
      match ERA_DECADE_MAP.lookup decade_key with
      | some label => label
      | none => decade_key ++ "s"

/-- Match, at one position, of the rule stated by the specification: a run of
exactly four consecutive digits, delimited by non-digits (or the ends of the
string) rather than by word boundaries. -/
def digitRunAt (prev : Option Char) : List Char → Bool
  | c1 :: c2 :: c3 :: c4 :: rest =>
    c1.isDigit && c2.isDigit && c3.isDigit && c4.isDigit &&
      (match prev with
       | none => true
       | some p => !p.isDigit) &&
      (match rest with
       | [] => true
       | r :: _ => !r.isDigit)
  | _ => false

/-- Leftmost match of the digit-run rule of the specification. -/
def searchDigitRun : Option Char → List Char → Option (List Char)
  | _, [] => none
  | prev, c :: rest =>
    if digitRunAt prev (c :: rest) then some ((c :: rest).take 4)
    else searchDigitRun (some c) rest

/-- Era classifier following the words of the claim (for comparison with the
source function): extract the first run of exactly 4 consecutive digits found
anywhere in the string, then map through the decade table. -/
def claimed_era_from_date (date_str : String) : String :=
  if date_str = "" then UNKNOWN_ERA
  else
    match searchDigitRun none date_str.data with
    | none => UNKNOWN_ERA
    | some year_str =>
      let year := intOfDigits year_str
      let decade_key := natStr (year / 10 * 10)
      match ERA_DECADE_MAP.lookup decade_key with
      | some label => label
      | none => decade_key ++ "s"

/-! ## Cosine similarity -/

/-- Error message of the ValueError raised by cosine_similarity. -/
def dimMismatchMsg (la lb : Nat) : String :=
  "Embedding dimension mismatch: " ++ natStr la ++ " vs " ++ natStr lb

/-- cosine_similarity from semantic_graph.py.  Raises (Except.error) exactly
when the two vectors have different lengths; returns 0 when either vector has
zero magnitude. -/
def cosine_similarity (a b : List ℚ) : Except String ℚ :=
  if a.length ≠ b.length then .error (dimMismatchMsg a.length b.length)
  else
    let dot := ((a.zip b).map fun p => p.1 * p.2).sum
    let norm_a := ratSqrt ((a.map fun x => x * x).sum)
    let norm_b := ratSqrt ((b.map fun x => x * x).sum)
    if norm_a = 0 ∨ norm_b = 0 then .ok 0
    else .ok (dot / (norm_a * norm_b))

/-! ## Retrieval ranker (retrieve_top_k) -/

/-- The sort key order of retrieve_top_k: ascending in the Python tuple
(-score, node id), that is, score descending with ties broken by node id
ascending. -/
def hitLe (r1 r2 : RetrievalResult) : Prop :=
  r2.score < r1.score ∨ (r1.score = r2.score ∧ strLe r1.node.id r2.node.id = true)

instance : DecidableRel hitLe := fun r1 r2 =>
  inferInstanceAs (Decidable (_ ∨ _))

/-- retrieve_top_k from retrieval.py: score every node against the query,
sort stably by (-score, id) and take the first k.  Modelled with k a natural
number (a count of results). -/
def retrieve_top_k (query_embedding : List ℚ) (nodes : List MemoryNode)
    (k : Nat) : Except String (List RetrievalResult) :=
  if nodes.isEmpty then .ok []
  else do
    let scored ← nodes.mapM fun n =>
      (cosine_similarity query_embedding n.embedding).map fun s =>
        RetrievalResult.mk n s
    .ok ((scored.insertionSort hitLe).take k)

/-! ## Graph builder (build_semantic_graph) -/

/-- All index pairs (i, j) with i < j < n, enumerated in the order of the two
nested loops of build_semantic_graph. -/
def allPairs (n : Nat) : List (Nat × Nat) :=
  (List.range n).flatMap fun i =>
    (List.range' (i + 1) (n - (i + 1))).map fun j => (i, j)

/-- Descending-similarity order used for the final edge sort
(sort with key similarity, reverse=True, stable). -/
def edgeLe (e1 e2 : MemoryEdge) : Prop := e2.similarity ≤ e1.similarity

instance : DecidableRel edgeLe := fun e1 e2 =>
  inferInstanceAs (Decidable (e2.similarity ≤ e1.similarity))

/-- build_semantic_graph from semantic_graph.py with an explicit threshold
(the Python default is read from an environment variable and is not modelled;
every caller here passes the threshold).  For every pair (i, j) with i < j
the similarity is computed (a dimension mismatch raises), an edge is emitted
when the raw similarity is at least the threshold, carrying the similarity
rounded to 4 decimals, and the edges are finally sorted by descending
similarity. -/
def build_semantic_graph (nodes : List MemoryNode) (threshold : ℚ) :
    Except String (List MemoryEdge) := do
  let scored ← (allPairs nodes.length).mapM fun p =>
    (cosine_similarity (nodes.getD p.1 defaultNode).embedding
        (nodes.getD p.2 defaultNode).embedding).map fun s => (p, s)
  let edges := (scored.filter fun ps => decide (threshold ≤ ps.2)).map fun ps =>
    MemoryEdge.mk (nodes.getD ps.1.1 defaultNode).id
      (nodes.getD ps.1.2 defaultNode).id (round4 ps.2)
  .ok (edges.insertionSort edgeLe)

/-! ## Cluster detector (find_memory_clusters) -/

/-- The union-find parent map is a Python dict with the node ids as keys;
it is modelled as a total function on strings, updated pointwise.  The keys
never change after initialisation (unions only rewrite values), so the
membership tests of find_memory_clusters are modelled as membership in the
node id list. -/
def makeUnionFind : String → String := fun nid => nid

/-- The find operation of find_memory_clusters, with path compression, which
rewrites the parent map while walking up to the root; returns the root
together with the updated map.  The while loop terminates because parent
chains are finite; fuel (always instantiated with the number of nodes, an
upper bound on the chain length) makes the recursion structural. -/
def ufFind : Nat → (String → String) → String → String × (String → String)
  | 0, parent, nid => (nid, parent)
  | fuel + 1, parent, nid =>
    if parent nid = nid then (nid, parent)
    else
      let parent' := fun x => if x = nid then parent (parent nid) else parent x
      ufFind fuel parent' (parent' nid)

/-- The union operation of find_memory_clusters: find both roots and make the
root of the first argument the parent of the root of the second. -/
def ufUnion (fuel : Nat) (parent : String → String) (a b : String) :
    String → String :=
  let fa := ufFind fuel parent a
  let fb := ufFind fuel fa.2 b
  if fa.1 ≠ fb.1 then fun x => if x = fb.1 then fa.1 else fb.2 x
  else fb.2

/-- Append a value to the bucket of a key in an insertion-ordered association
list, creating the bucket at the end if the key is new; models
defaultdict(list) indexing followed by append. -/
def bucketAdd (buckets : List (String × List String)) (key v : String) :
    List (String × List String) :=
  match buckets with
  | [] => [(key, [v])]
  | (k, vs) :: rest =>
    if k = key then (k, vs ++ [v]) :: rest
    else (k, vs) :: bucketAdd rest key v

/-- Assignment into an insertion-ordered dict: overwrite the value if the key
is present, otherwise append the binding at the end. -/
def dictInsert (d : List (String × List String)) (key : String)
    (v : List String) : List (String × List String) :=
  match d with
  | [] => [(key, v)]
  | (k, w) :: rest =>
    if k = key then (k, v) :: rest
    else (k, w) :: dictInsert rest key v

/-- Lookup of id_to_node built as a Python dict comprehension over the node
list: on duplicate ids the later node wins, hence the search over the
reversed list. -/
def idToNode (nodes : List MemoryNode) (nid : String) : Option MemoryNode :=
  nodes.reverse.find? fun n => n.id = nid

/-- Era of the root node of a cluster, or unknown when the root id is not a
node id. -/
def eraOfRoot (nodes : List MemoryNode) (root : String) : String :=
  match idToNode nodes root with
  | some n => n.era
  | none => UNKNOWN_ERA

/-- Cluster label: cluster_ then the era then an underscore then the
per-era ordinal. -/
def mkLabel (era : String) (idx : Nat) : String :=
  "cluster_" ++ era ++ "_" ++ natStr idx

/-- One step of the labelling loop of find_memory_clusters: compute the era
of the root, read and bump the per-era counter, and assign the labelled
member list into the cluster dict. -/
def labelStep (nodes : List MemoryNode)
    (st : (String → Nat) × List (String × List String))
    (b : String × List String) :
    (String → Nat) × List (String × List String) :=
  let era := eraOfRoot nodes b.1
  let idx := st.1 era
  (fun e => if e = era then idx + 1 else st.1 e,
   dictInsert st.2 (mkLabel era idx) b.2)

/-- find_memory_clusters from semantic_graph.py: union the endpoints of every
edge whose endpoints are both known node ids, group the node ids by their
find-root (in node order, buckets in first-discovery order), then label each
group cluster_era_ordinal with a per-era ordinal counter, in group order.
Returns the insertion-ordered association list modelling the returned
dict. -/
def find_memory_clusters (nodes : List MemoryNode) (edges : List MemoryEdge) :
    List (String × List String) :=
  let node_ids := nodes.map fun n => n.id
  let fuel := node_ids.length
  let parent1 := edges.foldl
    (fun p e =>
      if e.source_id ∈ node_ids ∧ e.target_id ∈ node_ids then
        ufUnion fuel p e.source_id e.target_id
      else p)
    makeUnionFind
  let grouped := node_ids.foldl
    (fun (st : (String → String) × List (String × List String)) nid =>
      let fr := ufFind fuel st.1 nid
      (fr.2, bucketAdd st.2 fr.1 nid))
    (parent1, [])
  (grouped.2.foldl (labelStep nodes) ((fun _ => 0), [])).2

/-! ## Formatter (format_retrieval_results) -/

/-- Python str.strip(): drop whitespace from both ends, modelled on the
character list so that it evaluates inside the kernel. -/
def pyStrip (s : String) : String :=
  String.mk
    (((s.data.dropWhile Char.isWhitespace).reverse.dropWhile
        Char.isWhitespace).reverse)

/-- Caption preparation of format_retrieval_results: strip, then hard
truncation of captions longer than 200 characters to 197 characters plus an
ellipsis. -/
def prepCaption (text : String) : String :=
  if (pyStrip text).length > 200 then (pyStrip text).take 197 ++ "..."
  else pyStrip text

/-- One numbered line of format_retrieval_results. -/
def hitLine (idx : Nat) (r : RetrievalResult) : String :=
  natStr idx ++ ". [score=" ++ fmt4 r.score ++ "] \"" ++
    prepCaption r.node.text ++ "\""

/-- format_retrieval_results from retrieval.py: the fallback message on an
empty hit list, otherwise a header line followed by one numbered line per
hit, joined with newlines. -/
def format_retrieval_results (results : List RetrievalResult) : String :=
  if results.isEmpty then "No matching memories found."
  else
    String.intercalate "\n"
      ("Relevant memories (most similar first):" ::
        results.enum.map fun p => hitLine (p.1 + 1) p.2)

/-! ## Helper lemmas about mapM over Except -/

theorem mapM_ok_iff {α β : Type} (f : α → Except String β) (xs : List α) :
    ∀ ys : List β,
      xs.mapM f = Except.ok ys ↔
        List.Forall₂ (fun x y => f x = Except.ok y) xs ys := by
  induction xs with
  | nil =>
    intro ys
    constructor
    · intro h
      simp only [List.mapM_nil, pure, Except.pure, Except.ok.injEq] at h
      rw [← h]
      exact List.Forall₂.nil
    · intro h
      cases h
      rfl
  | cons x xs ih =>
    intro ys
    rw [List.mapM_cons]
    constructor
    · intro h
      cases hfx : f x with
      | error e =>
        rw [hfx] at h
        simp only [Bind.bind, Except.bind] at h
        exact Except.noConfusion h
      | ok y =>
        rw [hfx] at h
        cases hm : xs.mapM f with
        | error e =>
          rw [hm] at h
          simp only [Bind.bind, Except.bind] at h
          exact Except.noConfusion h
        | ok ys2 =>
          rw [hm] at h
          simp only [Bind.bind, Except.bind, pure, Except.pure,
            Except.ok.injEq] at h
          rw [← h]
          exact List.Forall₂.cons hfx ((ih ys2).mp hm)
    · intro h
      cases h with
      | cons hxy htail =>
        rw [hxy, (ih _).mpr htail]
        rfl

theorem forall₂_mem_left {α β : Type} {R : α → β → Prop} {xs : List α}
    {ys : List β} (h : List.Forall₂ R xs ys) {x : α} (hx : x ∈ xs) :
    ∃ y, y ∈ ys ∧ R x y := by
  induction h with
  | nil => cases hx
  | cons hr _ ih =>
    rcases List.mem_cons.mp hx with rfl | hmem
    · exact ⟨_, List.mem_cons_self _ _, hr⟩
    · rcases ih hmem with ⟨y, hy, hr2⟩
      exact ⟨y, List.mem_cons_of_mem _ hy, hr2⟩

theorem forall₂_mem_right {α β : Type} {R : α → β → Prop} {xs : List α}
    {ys : List β} (h : List.Forall₂ R xs ys) {y : β} (hy : y ∈ ys) :
    ∃ x, x ∈ xs ∧ R x y := by
  induction h with
  | nil => cases hy
  | cons hr _ ih =>
    rcases List.mem_cons.mp hy with rfl | hmem
    · exact ⟨_, List.mem_cons_self _ _, hr⟩
    · rcases ih hmem with ⟨x, hx, hr2⟩
      exact ⟨x, List.mem_cons_of_mem _ hx, hr2⟩

theorem mapM_error_of_mem {α β : Type} (f : α → Except String β)
    (xs : List α) (x : α) (hx : x ∈ xs)
    (hfx : ∀ y, f x ≠ Except.ok y) :
    ∃ e, xs.mapM f = Except.error e := by
  cases h : xs.mapM f with
  | error e => exact ⟨e, rfl⟩
  | ok ys =>
    rcases forall₂_mem_left ((mapM_ok_iff f xs ys).mp h) hx with ⟨y, _, hr⟩
    exact absurd hr (hfx y)

/-! ## Helper lemmas about cosine_similarity -/

theorem cosine_ok_of_length_eq {a b : List ℚ} (h : a.length = b.length) :
    ∃ v, cosine_similarity a b = Except.ok v := by
  rw [cosine_similarity, if_neg (by simp [h])]
  dsimp only
  split
  · exact ⟨0, rfl⟩
  · exact ⟨_, rfl⟩

theorem cosine_error_iff (a b : List ℚ) :
    cosine_similarity a b = Except.error (dimMismatchMsg a.length b.length) ↔
      a.length ≠ b.length := by
  constructor
  · intro h
    by_contra hne
    rcases cosine_ok_of_length_eq hne with ⟨v, hv⟩
    rw [hv] at h
    exact Except.noConfusion h
  · intro h
    rw [cosine_similarity, if_pos h]

theorem cosine_not_ok_of_length_ne {a b : List ℚ} (h : a.length ≠ b.length) :
    ∀ v, cosine_similarity a b ≠ Except.ok v := by
  intro v hv
  rw [cosine_similarity, if_pos h] at hv
  exact Except.noConfusion hv

/-- C2. For every pair of float vectors a and b, cosine_similarity raises the
dimension-mismatch error exactly when the lengths differ, never raises on
equal-length inputs, and the error propagates out of retrieve_top_k and
build_semantic_graph when they compare vectors of differing dimension. -/
theorem claim_dimension_mismatch :
    (∀ a b : List ℚ,
        cosine_similarity a b =
            Except.error (dimMismatchMsg a.length b.length) ↔
          a.length ≠ b.length) ∧
    (∀ a b : List ℚ, a.length = b.length →
        ∃ v, cosine_similarity a b = Except.ok v) ∧
    (∀ (q : List ℚ) (nodes : List MemoryNode) (k : Nat),
        (∃ n ∈ nodes, n.embedding.length ≠ q.length) →
        ∃ e, retrieve_top_k q nodes k = Except.error e) ∧
    (∀ (nodes : List MemoryNode) (t : ℚ) (i j : Nat), i < j →
        j < nodes.length →
        (nodes.getD i defaultNode).embedding.length ≠
          (nodes.getD j defaultNode).embedding.length →
        ∃ e, build_semantic_graph nodes t = Except.error e) := by
  refine ⟨cosine_error_iff, fun a b h => cosine_ok_of_length_eq h, ?_, ?_⟩
  · intro q nodes k ⟨n, hn, hlen⟩
    have hne : ¬ nodes.isEmpty := by
      cases nodes with
      | nil => cases hn
      | cons _ _ => simp
    have hbad : ∀ r : RetrievalResult,
        (cosine_similarity q n.embedding).map
            (fun s => RetrievalResult.mk n s) ≠ Except.ok r := by
      intro r hr
      cases hc : cosine_similarity q n.embedding with
      | error e => rw [hc] at hr; exact Except.noConfusion hr
      | ok s =>
        exact cosine_not_ok_of_length_ne (fun h => hlen h.symm) s hc
    rcases mapM_error_of_mem
        (fun n => (cosine_similarity q n.embedding).map fun s =>
          RetrievalResult.mk n s) nodes n hn hbad with ⟨e, he⟩
    refine ⟨e, ?_⟩
    rw [retrieve_top_k, if_neg hne, he]
    rfl
  · intro nodes t i j hij hj hlen
    have hmem : (i, j) ∈ allPairs nodes.length := by
      rw [allPairs]
      refine List.mem_flatMap.mpr ⟨i, List.mem_range.mpr (lt_trans hij hj), ?_⟩
      refine List.mem_map.mpr ⟨j, ?_, rfl⟩
      refine List.mem_range'_1.mpr ⟨hij, ?_⟩
      omega
    have hbad : ∀ r : (Nat × Nat) × ℚ,
        (cosine_similarity (nodes.getD i defaultNode).embedding
              (nodes.getD j defaultNode).embedding).map
            (fun s => ((i, j), s)) ≠ Except.ok r := by
      intro r hr
      cases hc : cosine_similarity (nodes.getD i defaultNode).embedding
          (nodes.getD j defaultNode).embedding with
      | error e => rw [hc] at hr; exact Except.noConfusion hr
      | ok s => exact cosine_not_ok_of_length_ne hlen s hc
    rcases mapM_error_of_mem
        (fun p => (cosine_similarity (nodes.getD p.1 defaultNode).embedding
            (nodes.getD p.2 defaultNode).embedding).map fun s => (p, s))
        (allPairs nodes.length) (i, j) hmem hbad with ⟨e, he⟩
    refine ⟨e, ?_⟩
    rw [build_semantic_graph, he]
    rfl

/-- Closed witness for C2 at concrete inputs. -/
theorem claim_dimension_mismatch_witness :
    (cosine_similarity [1, 2, 3] [1, 2, 3, 4, 5] =
        Except.error (dimMismatchMsg 3 5)) ∧
    (∃ e, retrieve_top_k [1, 0] [⟨"n1", "t", [1, 0, 0], "", "unknown"⟩] 5 =
        Except.error e) ∧
    (∃ e, build_semantic_graph
        [⟨"n1", "t", [1, 0], "", "unknown"⟩,
         ⟨"n2", "t", [1, 0, 0], "", "unknown"⟩] (7 / 10) =
        Except.error e) := by
  refine ⟨?_, ?_, ?_⟩
  · exact (claim_dimension_mismatch.1 [1, 2, 3] [1, 2, 3, 4, 5]).mpr
      (by decide)
  · exact claim_dimension_mismatch.2.2.1 [1, 0] _ 5
      ⟨_, List.mem_singleton.mpr rfl, by decide⟩
  · exact claim_dimension_mismatch.2.2.2 _ (7 / 10) 0 1 (by decide) (by decide)
      (by decide)

/-! ## C9: zero-magnitude vectors -/

theorem ratSqrt_zero : ratSqrt 0 = 0 := by
  have h0 : (0 : ℚ).num.toNat = 0 := rfl
  rw [ratSqrt, h0]
  norm_num [natSqrt, natSqrtAux]

/-- C9. For equal-length vectors where either operand has zero magnitude,
cosine_similarity returns exactly 0 with no exception. -/
theorem claim_zero_magnitude (a b : List ℚ) (hlen : a.length = b.length)
    (hz : (∀ x ∈ a, x = 0) ∨ (∀ x ∈ b, x = 0)) :
    cosine_similarity a b = Except.ok 0 := by
  rw [cosine_similarity, if_neg (by simp [hlen])]
  have hsum : ∀ l : List ℚ, (∀ x ∈ l, x = 0) →
      ((l.map fun x => x * x).sum : ℚ) = 0 := by
    intro l hl
    apply List.sum_eq_zero
    intro y hy
    rcases List.mem_map.mp hy with ⟨x, hx, rfl⟩
    rw [hl x hx, mul_zero]
  have hcond : ratSqrt ((a.map fun x => x * x).sum) = 0 ∨
      ratSqrt ((b.map fun x => x * x).sum) = 0 := by
    rcases hz with hza | hzb
    · exact Or.inl (by rw [hsum a hza, ratSqrt_zero])
    · exact Or.inr (by rw [hsum b hzb, ratSqrt_zero])
  dsimp only
  rw [if_pos hcond]

/-- Closed witness for C9 at a concrete input. -/
theorem claim_zero_magnitude_witness :
    cosine_similarity [0, 0, 0] [3, 4, 5] = Except.ok 0 :=
  claim_zero_magnitude [0, 0, 0] [3, 4, 5] (by decide)
    (Or.inl (by intro x hx; simpa using hx))

/-! ## C4: top-k length bound -/

/-- C4. retrieve_top_k returns exactly min k (number of nodes) hits whenever
it returns at all, and the empty node list yields the empty list rather than
an error. -/
theorem claim_top_k_bound (q : List ℚ) (nodes : List MemoryNode) (k : Nat) :
    (retrieve_top_k q [] k = Except.ok []) ∧
    (∀ res, retrieve_top_k q nodes k = Except.ok res →
      res.length = min k nodes.length) := by
  constructor
  · rfl
  · intro res h
    cases nodes with
    | nil =>
      rw [retrieve_top_k] at h
      simp only [List.isEmpty_nil, if_pos, Except.ok.injEq] at h
      simp [← h]
    | cons n ns =>
      rw [retrieve_top_k, if_neg (by simp)] at h
      cases hm : (n :: ns).mapM fun nd =>
          (cosine_similarity q nd.embedding).map fun s =>
            RetrievalResult.mk nd s with
      | error e =>
        rw [hm] at h
        exact Except.noConfusion h
      | ok scored =>
        rw [hm] at h
        simp only [Bind.bind, Except.bind, Except.ok.injEq] at h
        have hlen : scored.length = (n :: ns).length :=
          (List.Forall₂.length_eq ((mapM_ok_iff _ _ _).mp hm)).symm
        rw [← h, List.length_take, (List.perm_insertionSort hitLe scored).length_eq,
          hlen]

/-- Closed witness for C4 at a concrete input. -/
theorem claim_top_k_bound_witness :
    retrieve_top_k [1] [] 3 = Except.ok [] ∧
    ∃ res, retrieve_top_k [1] [⟨"n1", "t", [2], "", "unknown"⟩] 3 =
        Except.ok res ∧ res.length = min 3 1 := by
  have hres : retrieve_top_k [1] [⟨"n1", "t", [2], "", "unknown"⟩] 3 =
      Except.ok [RetrievalResult.mk ⟨"n1", "t", [2], "", "unknown"⟩ 1] := by
    have hc : cosine_similarity [1] [2] = Except.ok 1 := by
      norm_num [cosine_similarity, ratSqrt, natSqrt, natSqrtAux]
    rw [retrieve_top_k]
    simp only [List.isEmpty_cons, List.mapM_cons, List.mapM_nil, hc]
    rfl
  exact ⟨(claim_top_k_bound [1] [] 3).1,
    [RetrievalResult.mk ⟨"n1", "t", [2], "", "unknown"⟩ 1], hres,
    (claim_top_k_bound [1] [⟨"n1", "t", [2], "", "unknown"⟩] 3).2 _ hres⟩

/-! ## C3: retrieval ordering -/

theorem lexLe_total (l1 l2 : List Char) :
    lexLe l1 l2 = true ∨ lexLe l2 l1 = true := by
  induction l1 generalizing l2 with
  | nil => left; rfl
  | cons c cs ih =>
    cases l2 with
    | nil => right; rfl
    | cons d ds =>
      by_cases h1 : c.toNat < d.toNat
      · left; simp [lexLe, h1]
      · by_cases h2 : d.toNat < c.toNat
        · right; simp [lexLe, h2]
        · rcases ih ds with h | h
          · left; simp [lexLe, h1, h2, h]
          · right; simp [lexLe, h1, h2, h]

theorem lexLe_trans : ∀ {l1 l2 l3 : List Char}, lexLe l1 l2 = true →
    lexLe l2 l3 = true → lexLe l1 l3 = true := by
  intro l1
  induction l1 with
  | nil => intro l2 l3 _ _; rfl
  | cons c cs ih =>
    intro l2 l3 h12 h23
    cases l2 with
    | nil => exact absurd h12 (by simp [lexLe])
    | cons d ds =>
      cases l3 with
      | nil => exact absurd h23 (by simp [lexLe])
      | cons e es =>
        simp only [lexLe] at h12 h23 ⊢
        split_ifs at h12 h23 ⊢ <;> try rfl
        all_goals try exact h12
        all_goals try exact h23
        all_goals try omega
        all_goals exact ih h12 h23

instance : IsTotal RetrievalResult hitLe :=
  ⟨fun a b => by
    rcases lt_trichotomy a.score b.score with h | h | h
    · exact Or.inr (Or.inl h)
    · rcases lexLe_total a.node.id.data b.node.id.data with hl | hl
      · exact Or.inl (Or.inr ⟨h, hl⟩)
      · exact Or.inr (Or.inr ⟨h.symm, hl⟩)
    · exact Or.inl (Or.inl h)⟩

instance : IsTrans RetrievalResult hitLe :=
  ⟨fun a b c hab hbc => by
    rcases hab with hab | ⟨hab, hab2⟩
    · rcases hbc with hbc | ⟨hbc, _⟩
      · exact Or.inl (lt_trans hbc hab)
      · exact Or.inl (hbc ▸ hab)
    · rcases hbc with hbc | ⟨hbc, hbc2⟩
      · exact Or.inl (hab ▸ hbc)
      · exact Or.inr ⟨hab.trans hbc, lexLe_trans hab2 hbc2⟩⟩

/-- Query of Scenario 3: identical to the embedding of node b. -/
def exQ : List ℚ := [1, 0, 0, 0]

/-- Node a of Scenario 3, scoring one half against the query. -/
def exA : MemoryNode := ⟨"a", "caption a", [1, 1, 1, 1], "", "unknown"⟩

/-- Node b of Scenario 3, scoring one against the query. -/
def exB : MemoryNode := ⟨"b", "caption b", [1, 0, 0, 0], "", "unknown"⟩

/-- Node c of Scenario 3, tied with node a at one half. -/
def exC : MemoryNode := ⟨"c", "caption c", [1, 1, 1, 1], "", "unknown"⟩

/-- C3. retrieve_top_k returns exactly the first k entries of the scored list
sorted stably by score descending with ties broken by node id ascending, the
sorted list being a permutation of the scored list; and on Scenario 3 (query
equal to the embedding of b, scores a one half, b one, c one half, k two) the
result is b then a, the a/c tie broken by id. -/
theorem claim_retrieval_order :
    (∀ (q : List ℚ) (nodes : List MemoryNode) (k : Nat)
        (scored : List RetrievalResult),
      List.Forall₂
          (fun n r => r.node = n ∧
            cosine_similarity q n.embedding = Except.ok r.score)
          nodes scored →
      retrieve_top_k q nodes k =
          Except.ok ((scored.insertionSort hitLe).take k) ∧
        (scored.insertionSort hitLe).Perm scored ∧
        (scored.insertionSort hitLe).Pairwise hitLe ∧
        ((scored.insertionSort hitLe).take k).Pairwise hitLe) ∧
    retrieve_top_k exQ [exA, exB, exC] 2 =
      Except.ok [RetrievalResult.mk exB 1, RetrievalResult.mk exA (1 / 2)] := by
  constructor
  · intro q nodes k scored hsc
    have hm : (nodes.mapM fun n =>
        (cosine_similarity q n.embedding).map fun s =>
          RetrievalResult.mk n s) = Except.ok scored := by
      apply (mapM_ok_iff _ _ _).mpr
      refine hsc.imp ?_
      intro n r ⟨hn, hs⟩
      rw [hs]
      show Except.ok (RetrievalResult.mk n r.score) = Except.ok r
      rw [← hn]
    have hmain : retrieve_top_k q nodes k =
        Except.ok ((scored.insertionSort hitLe).take k) := by
      cases nodes with
      | nil =>
        cases (List.forall₂_nil_left_iff.mp hsc)
        simp [retrieve_top_k]
      | cons n ns =>
        rw [retrieve_top_k, if_neg (by simp), hm]
        rfl
    refine ⟨hmain, List.perm_insertionSort hitLe scored,
      List.sorted_insertionSort hitLe scored, ?_⟩
    exact List.Pairwise.sublist (List.take_sublist k _)
      (List.sorted_insertionSort hitLe scored)
  · have ha : cosine_similarity exQ exA.embedding = Except.ok (1 / 2) := by
      norm_num [cosine_similarity, exQ, exA, ratSqrt, natSqrt, natSqrtAux]
    have hb : cosine_similarity exQ exB.embedding = Except.ok 1 := by
      norm_num [cosine_similarity, exQ, exB, ratSqrt, natSqrt, natSqrtAux]
    have hc : cosine_similarity exQ exC.embedding = Except.ok (1 / 2) := by
      norm_num [cosine_similarity, exQ, exC, ratSqrt, natSqrt, natSqrtAux]
    rw [retrieve_top_k]
    simp only [List.isEmpty_cons, List.mapM_cons, List.mapM_nil, ha, hb, hc]
    simp only [Except.map, Except.bind, bind, pure, Except.pure]
    norm_num [List.insertionSort, List.orderedInsert, hitLe, strLe, lexLe,
      exA, exB, exC]
    rw [if_pos (by decide)]
    rfl

/-- Closed witness for C3: the general part applied to Scenario 3. -/
theorem claim_retrieval_order_witness :
    retrieve_top_k exQ [exA, exB, exC] 2 =
        Except.ok (([RetrievalResult.mk exA (1 / 2), RetrievalResult.mk exB 1,
          RetrievalResult.mk exC (1 / 2)].insertionSort hitLe).take 2) ∧
      ([RetrievalResult.mk exA (1 / 2), RetrievalResult.mk exB 1,
          RetrievalResult.mk exC (1 / 2)].insertionSort hitLe).Pairwise
        hitLe := by
  have h := claim_retrieval_order.1 exQ [exA, exB, exC] 2
    [RetrievalResult.mk exA (1 / 2), RetrievalResult.mk exB 1,
      RetrievalResult.mk exC (1 / 2)]
    (by
      refine List.Forall₂.cons ⟨rfl, ?_⟩ (List.Forall₂.cons ⟨rfl, ?_⟩
        (List.Forall₂.cons ⟨rfl, ?_⟩ List.Forall₂.nil))
      · norm_num [cosine_similarity, exQ, exA, ratSqrt, natSqrt, natSqrtAux]
      · norm_num [cosine_similarity, exQ, exB, ratSqrt, natSqrt, natSqrtAux]
      · norm_num [cosine_similarity, exQ, exC, ratSqrt, natSqrt, natSqrtAux])
  exact ⟨h.1, h.2.2.1⟩

/-! ## Characterisation of build_semantic_graph -/

theorem mem_allPairs {n i j : Nat} :
    (i, j) ∈ allPairs n ↔ i < j ∧ j < n := by
  rw [allPairs]
  constructor
  · intro h
    rcases List.mem_flatMap.mp h with ⟨i0, hi0, hmem⟩
    rcases List.mem_map.mp hmem with ⟨j0, hj0, hp⟩
    cases hp
    rcases List.mem_range'_1.mp hj0 with ⟨h1, h2⟩
    have := List.mem_range.mp hi0
    omega
  · intro ⟨hij, hj⟩
    refine List.mem_flatMap.mpr ⟨i, List.mem_range.mpr (lt_trans hij hj), ?_⟩
    refine List.mem_map.mpr ⟨j, List.mem_range'_1.mpr ⟨hij, by omega⟩, rfl⟩

theorem allPairs_nodup (n : Nat) : (allPairs n).Nodup := by
  rw [allPairs]
  apply List.nodup_flatMap.mpr
  constructor
  · intro i _
    exact (List.nodup_range' _ _).map fun a b h => congrArg Prod.snd h
  · apply List.Pairwise.imp_of_mem ?_ (List.nodup_range n)
    intro i1 i2 _ _ hne
    intro x hx1 hx2
    rcases List.mem_map.mp hx1 with ⟨j1, _, rfl⟩
    rcases List.mem_map.mp hx2 with ⟨j2, _, hp⟩
    exact hne ((Prod.mk.injEq _ _ _ _).mp hp).1.symm

theorem forall₂_map_fst {α β : Type} {R : α → α × β → Prop} {xs : List α}
    {ys : List (α × β)} (h : List.Forall₂ R xs ys)
    (hfst : ∀ x y, R x y → y.1 = x) : ys.map Prod.fst = xs := by
  induction h with
  | nil => rfl
  | cons hr ht ih => simp [ih, hfst _ _ hr]

/-- Elimination form for a successful build_semantic_graph: the scored pair
list exists, matches allPairs pointwise, and the result is the sorted
filtered map. -/
theorem build_ok_elim {nodes : List MemoryNode} {t : ℚ}
    {es : List MemoryEdge} (h : build_semantic_graph nodes t = Except.ok es) :
    ∃ scored : List ((Nat × Nat) × ℚ),
      List.Forall₂
          (fun p ps => ps.1 = p ∧
            cosine_similarity (nodes.getD p.1 defaultNode).embedding
                (nodes.getD p.2 defaultNode).embedding = Except.ok ps.2)
          (allPairs nodes.length) scored ∧
      es = ((scored.filter fun ps => decide (t ≤ ps.2)).map fun ps =>
          MemoryEdge.mk (nodes.getD ps.1.1 defaultNode).id
            (nodes.getD ps.1.2 defaultNode).id
            (round4 ps.2)).insertionSort edgeLe := by
  rw [build_semantic_graph] at h
  cases hm : (allPairs nodes.length).mapM fun p =>
      (cosine_similarity (nodes.getD p.1 defaultNode).embedding
          (nodes.getD p.2 defaultNode).embedding).map fun s => (p, s) with
  | error e =>
    rw [hm] at h
    exact Except.noConfusion h
  | ok scored =>
    rw [hm] at h
    simp only [Bind.bind, Except.bind, Except.ok.injEq] at h
    refine ⟨scored, ?_, h.symm⟩
    refine ((mapM_ok_iff _ _ _).mp hm).imp ?_
    intro p ps hps
    cases hc : cosine_similarity (nodes.getD p.1 defaultNode).embedding
        (nodes.getD p.2 defaultNode).embedding with
    | error e =>
      rw [hc] at hps
      exact Except.noConfusion hps
    | ok s =>
      rw [hc] at hps
      simp only [Except.map, Except.ok.injEq] at hps
      rw [← hps]
      exact ⟨rfl, rfl⟩

/-- C7. An edge is emitted for a pair exactly when the raw (unrounded) cosine
similarity of the two embeddings is at least the threshold, and the emitted
edge stores that similarity rounded to 4 decimal places. -/
theorem claim_compare_raw_store_rounded (nodes : List MemoryNode) (t : ℚ)
    (es : List MemoryEdge) (h : build_semantic_graph nodes t = Except.ok es) :
    ∀ e, e ∈ es ↔ ∃ i j s, i < j ∧ j < nodes.length ∧
      cosine_similarity (nodes.getD i defaultNode).embedding
          (nodes.getD j defaultNode).embedding = Except.ok s ∧
      t ≤ s ∧
      e = MemoryEdge.mk (nodes.getD i defaultNode).id
        (nodes.getD j defaultNode).id (round4 s) := by
  rcases build_ok_elim h with ⟨scored, hsc, rfl⟩
  intro e
  rw [(List.perm_insertionSort edgeLe _).mem_iff]
  constructor
  · intro hmem
    rcases List.mem_map.mp hmem with ⟨ps, hpsf, rfl⟩
    rcases List.mem_filter.mp hpsf with ⟨hpss, hts⟩
    rcases forall₂_mem_right hsc hpss with ⟨p, hp, hfst, hcos⟩
    subst hfst
    rcases mem_allPairs.mp hp with ⟨hij, hj⟩
    refine ⟨ps.1.1, ps.1.2, ps.2, hij, hj, hcos, of_decide_eq_true hts, ?_⟩
    rfl
  · rintro ⟨i, j, s, hij, hj, hcos, hts, rfl⟩
    rcases forall₂_mem_left hsc (mem_allPairs.mpr ⟨hij, hj⟩)
      with ⟨ps, hpss, hfst, hcos2⟩
    have hps : ps = ((i, j), s) := by
      have h2 : ps.2 = s := by
        rw [show ((i, j) : Nat × Nat).1 = i from rfl,
          show ((i, j) : Nat × Nat).2 = j from rfl, hcos] at hcos2
        exact ((Except.ok.injEq _ _).mp hcos2).symm
      rw [← hfst, ← h2]
    refine List.mem_map.mpr ⟨ps, List.mem_filter.mpr ⟨hpss, ?_⟩, ?_⟩
    · rw [hps]
      exact decide_eq_true hts
    · rw [hps]

/-- C8. Raising the threshold never increases the edge count of
build_semantic_graph on the same node list. -/
theorem claim_threshold_monotone (nodes : List MemoryNode) (t1 t2 : ℚ)
    (hts : t1 ≤ t2) (es2 : List MemoryEdge)
    (h2 : build_semantic_graph nodes t2 = Except.ok es2) :
    ∃ es1, build_semantic_graph nodes t1 = Except.ok es1 ∧
      es2.length ≤ es1.length := by
  rw [build_semantic_graph] at h2 ⊢
  cases hm : (allPairs nodes.length).mapM fun p =>
      (cosine_similarity (nodes.getD p.1 defaultNode).embedding
          (nodes.getD p.2 defaultNode).embedding).map fun s => (p, s) with
  | error e =>
    rw [hm] at h2
    exact Except.noConfusion h2
  | ok scored =>
    rw [hm] at h2
    simp only [Bind.bind, Except.bind, Except.ok.injEq] at h2
    refine ⟨((scored.filter fun ps => decide (t1 ≤ ps.2)).map fun ps =>
        MemoryEdge.mk (nodes.getD ps.1.1 defaultNode).id
          (nodes.getD ps.1.2 defaultNode).id
          (round4 ps.2)).insertionSort edgeLe, ?_, ?_⟩
    · rfl
    rw [← h2]
    rw [(List.perm_insertionSort edgeLe _).length_eq,
      (List.perm_insertionSort edgeLe _).length_eq,
      List.length_map, List.length_map,
      ← List.countP_eq_length_filter, ← List.countP_eq_length_filter]
    apply List.countP_mono_left
    intro ps _ hp
    exact decide_eq_true (le_trans hts (of_decide_eq_true hp))

/-- C6. On nodes with pairwise distinct ids, build_semantic_graph emits no
self-loop, never the same unordered id pair twice, and every edge joins an
earlier input position (source) to a later one (target). -/
theorem claim_no_self_loops (nodes : List MemoryNode) (t : ℚ)
    (es : List MemoryEdge)
    (hnd : (nodes.map fun n => n.id).Nodup)
    (h : build_semantic_graph nodes t = Except.ok es) :
    (∀ e ∈ es, e.source_id ≠ e.target_id) ∧
    es.Pairwise (fun e f =>
      ¬((e.source_id = f.source_id ∧ e.target_id = f.target_id) ∨
        (e.source_id = f.target_id ∧ e.target_id = f.source_id))) ∧
    (∀ e ∈ es, ∃ i j, i < j ∧ j < nodes.length ∧
      e.source_id = (nodes.getD i defaultNode).id ∧
      e.target_id = (nodes.getD j defaultNode).id) := by
  have idinj : ∀ i j, i < nodes.length → j < nodes.length →
      (nodes.getD i defaultNode).id = (nodes.getD j defaultNode).id →
      i = j := by
    intro i j hi hj hid
    have hi2 : i < (nodes.map fun n => n.id).length := by simpa using hi
    have hj2 : j < (nodes.map fun n => n.id).length := by simpa using hj
    have hg : (nodes.map fun n => n.id).get ⟨i, hi2⟩ =
        (nodes.map fun n => n.id).get ⟨j, hj2⟩ := by
      simp only [List.get_eq_getElem, List.getElem_map]
      rw [← List.getD_eq_getElem nodes defaultNode hi,
        ← List.getD_eq_getElem nodes defaultNode hj]
      exact hid
    exact congrArg Fin.val (List.nodup_iff_injective_get.mp hnd hg)
  rcases build_ok_elim h with ⟨scored, hsc, rfl⟩
  have hememo : ∀ e ∈ (scored.filter fun ps => decide (t ≤ ps.2)).map
      fun ps => MemoryEdge.mk (nodes.getD ps.1.1 defaultNode).id
        (nodes.getD ps.1.2 defaultNode).id (round4 ps.2),
      ∃ i j, i < j ∧ j < nodes.length ∧
        e.source_id = (nodes.getD i defaultNode).id ∧
        e.target_id = (nodes.getD j defaultNode).id := by
    intro e hmem
    rcases List.mem_map.mp hmem with ⟨ps, hpsf, rfl⟩
    rcases List.mem_filter.mp hpsf with ⟨hpss, _⟩
    rcases forall₂_mem_right hsc hpss with ⟨p, hp, hfst, _⟩
    rcases mem_allPairs.mp (hfst ▸ hp) with ⟨hij, hj⟩
    exact ⟨ps.1.1, ps.1.2, hij, hj, rfl, rfl⟩
  have hperm := List.perm_insertionSort edgeLe
    ((scored.filter fun ps => decide (t ≤ ps.2)).map
      fun ps => MemoryEdge.mk (nodes.getD ps.1.1 defaultNode).id
        (nodes.getD ps.1.2 defaultNode).id (round4 ps.2))
  refine ⟨?_, ?_, ?_⟩
  · intro e hmem
    rcases hememo e (hperm.mem_iff.mp hmem) with ⟨i, j, hij, hj, hs, ht⟩
    rw [hs, ht]
    intro heq
    exact absurd (idinj i j (lt_trans hij hj) hj heq) (Nat.ne_of_lt hij)
  · have hfstnd : scored.Pairwise fun ps qs => ps.1 ≠ qs.1 := by
      apply List.pairwise_map.mp
      rw [forall₂_map_fst hsc fun p ps h => h.1]
      exact allPairs_nodup nodes.length
    have hfilt : (scored.filter fun ps => decide (t ≤ ps.2)).Pairwise
        (fun ps qs => ps.1 ≠ qs.1) :=
      List.Pairwise.sublist (List.filter_sublist scored) hfstnd
    have hmapped : ((scored.filter fun ps => decide (t ≤ ps.2)).map
        fun ps => MemoryEdge.mk (nodes.getD ps.1.1 defaultNode).id
          (nodes.getD ps.1.2 defaultNode).id (round4 ps.2)).Pairwise
        (fun e f =>
          ¬((e.source_id = f.source_id ∧ e.target_id = f.target_id) ∨
            (e.source_id = f.target_id ∧ e.target_id = f.source_id))) := by
      apply List.pairwise_map.mpr
      apply List.Pairwise.imp_of_mem ?_ hfilt
      intro ps qs hpsm hqsm hne
      rcases forall₂_mem_right hsc (List.mem_filter.mp hpsm).1
        with ⟨p, hp, hpfst, _⟩
      rcases forall₂_mem_right hsc (List.mem_filter.mp hqsm).1
        with ⟨q, hq, hqfst, _⟩
      rcases mem_allPairs.mp (hpfst ▸ hp) with ⟨hij1, hj1⟩
      rcases mem_allPairs.mp (hqfst ▸ hq) with ⟨hij2, hj2⟩
      dsimp only
      intro hcontra
      rcases hcontra with ⟨h1, h2⟩ | ⟨h1, h2⟩
      · have e1 := idinj _ _ (lt_trans hij1 hj1) (lt_trans hij2 hj2) h1
        have e2 := idinj _ _ hj1 hj2 h2
        exact hne (Prod.ext e1 e2)
      · have e1 := idinj _ _ (lt_trans hij1 hj1) hj2 h1
        have e2 := idinj _ _ hj1 (lt_trans hij2 hj2) h2
        omega
    exact (hperm.pairwise_iff (fun h => by tauto)).mpr hmapped
  · intro e hmem
    exact hememo e (hperm.mem_iff.mp hmem)

/-! ## Concrete graph (Scenario 1) used by the witnesses of C6, C7 and C8 -/

/-- First node of Scenario 1, embedding pointing along the first axis. -/
def g0 : MemoryNode := ⟨"n0", "t0", [1, 0], "", "unknown"⟩

/-- Second node of Scenario 1, identical embedding to the first node. -/
def g1 : MemoryNode := ⟨"n1", "t1", [1, 0], "", "unknown"⟩

/-- Third node of Scenario 1, orthogonal embedding. -/
def g2 : MemoryNode := ⟨"n2", "t2", [0, 1], "", "unknown"⟩

theorem round4_one : round4 1 = 1 := by
  have h : roundHalfEven ((10000 : ℤ) : ℚ) = 10000 := by
    rw [roundHalfEven]
    norm_num
  rw [round4, show ((1 : ℚ) * 10000) = ((10000 : ℤ) : ℚ) by norm_num, h]
  norm_num

theorem build_scenario1 :
    build_semantic_graph [g0, g1, g2] (9 / 10) =
      Except.ok [MemoryEdge.mk "n0" "n1" 1] := by
  have h01 : cosine_similarity [(1 : ℚ), 0] [1, 0] = Except.ok 1 := by
    norm_num [cosine_similarity, ratSqrt, natSqrt, natSqrtAux]
  have h02 : cosine_similarity [(1 : ℚ), 0] [0, 1] = Except.ok 0 := by
    norm_num [cosine_similarity, ratSqrt, natSqrt, natSqrtAux]
  rw [build_semantic_graph,
    show ([g0, g1, g2] : List MemoryNode).length = 3 from rfl,
    show allPairs 3 = [(0, 1), (0, 2), (1, 2)] from by decide]
  simp only [List.mapM_cons, List.mapM_nil,
    show ([g0, g1, g2].getD 0 defaultNode) = g0 from rfl,
    show ([g0, g1, g2].getD 1 defaultNode) = g1 from rfl,
    show ([g0, g1, g2].getD 2 defaultNode) = g2 from rfl]
  simp only [show g0.embedding = [(1 : ℚ), 0] from rfl,
    show g1.embedding = [(1 : ℚ), 0] from rfl,
    show g2.embedding = [(0 : ℚ), 1] from rfl, h01, h02]
  simp only [Except.map, Except.bind, bind, pure, Except.pure]
  norm_num [List.filter, List.insertionSort, List.orderedInsert, round4_one,
    show g0.id = "n0" from rfl, show g1.id = "n1" from rfl,
    show g2.id = "n2" from rfl]

/-- Closed witness for C6 on the Scenario 1 graph. -/
theorem claim_no_self_loops_witness :
    (∀ e ∈ [MemoryEdge.mk "n0" "n1" 1], e.source_id ≠ e.target_id) ∧
    ([MemoryEdge.mk "n0" "n1" 1] : List MemoryEdge).Pairwise (fun e f =>
      ¬((e.source_id = f.source_id ∧ e.target_id = f.target_id) ∨
        (e.source_id = f.target_id ∧ e.target_id = f.source_id))) ∧
    (∀ e ∈ [MemoryEdge.mk "n0" "n1" 1], ∃ i j, i < j ∧
      j < ([g0, g1, g2] : List MemoryNode).length ∧
      e.source_id = ([g0, g1, g2].getD i defaultNode).id ∧
      e.target_id = ([g0, g1, g2].getD j defaultNode).id) :=
  claim_no_self_loops [g0, g1, g2] (9 / 10) [MemoryEdge.mk "n0" "n1" 1]
    (by decide) build_scenario1

/-- Closed witness for C7 on the Scenario 1 graph, at the one emitted
edge. -/
theorem claim_compare_raw_store_rounded_witness :
    MemoryEdge.mk "n0" "n1" 1 ∈ [MemoryEdge.mk "n0" "n1" 1] ↔
      ∃ i j s, i < j ∧ j < ([g0, g1, g2] : List MemoryNode).length ∧
        cosine_similarity ([g0, g1, g2].getD i defaultNode).embedding
            ([g0, g1, g2].getD j defaultNode).embedding = Except.ok s ∧
        9 / 10 ≤ s ∧
        MemoryEdge.mk "n0" "n1" 1 =
          MemoryEdge.mk ([g0, g1, g2].getD i defaultNode).id
            ([g0, g1, g2].getD j defaultNode).id (round4 s) :=
  claim_compare_raw_store_rounded [g0, g1, g2] (9 / 10)
    [MemoryEdge.mk "n0" "n1" 1] build_scenario1 (MemoryEdge.mk "n0" "n1" 1)

/-- Closed witness for C8 on the Scenario 1 graph, lowering the threshold
from nine tenths to one half. -/
theorem claim_threshold_monotone_witness :
    ∃ es1, build_semantic_graph [g0, g1, g2] (1 / 2) = Except.ok es1 ∧
      ([MemoryEdge.mk "n0" "n1" 1] : List MemoryEdge).length ≤ es1.length :=
  claim_threshold_monotone [g0, g1, g2] (1 / 2) (9 / 10) (by norm_num)
    [MemoryEdge.mk "n0" "n1" 1] build_scenario1

end MemoryBridge

namespace MemoryBridge

/-! ## C10: formatter -/

/-- C10. format_retrieval_results returns the exact fallback string on an
empty hit list; otherwise it renders one numbered line per hit (numbering
from 1, in input order) with the score formatted to 4 decimals and the
stripped caption, captions longer than 200 characters being hard-truncated
to 197 characters plus a three-character ellipsis (200 characters in all),
and every rendered caption is at most 200 characters long. -/
theorem claim_format_results :
    (format_retrieval_results [] = "No matching memories found.") ∧
    (∀ results : List RetrievalResult, results ≠ [] →
      format_retrieval_results results =
        String.intercalate "\n"
          ("Relevant memories (most similar first):" ::
            results.enum.map fun p =>
              natStr (p.1 + 1) ++ ". [score=" ++ fmt4 p.2.score ++ "] \"" ++
                prepCaption p.2.node.text ++ "\"")) ∧
    (∀ r : RetrievalResult, (prepCaption r.node.text).length ≤ 200) ∧
    (∀ r : RetrievalResult, 200 < (pyStrip r.node.text).length →
      prepCaption r.node.text =
        (pyStrip r.node.text).take 197 ++ "...") := by
  refine ⟨rfl, ?_, ?_, ?_⟩
  · intro results hne
    rw [format_retrieval_results, if_neg (by simpa using hne)]
    simp only [hitLine]
  · intro r
    rw [prepCaption]
    split
    · rw [String.length_append]
      have h1 : ((pyStrip r.node.text).take 197).length ≤ 197 := by
        rw [show ∀ t : String, t.length = t.data.length from fun _ => rfl,
          String.data_take, List.length_take]
        omega
      have h2 : ("..." : String).length = 3 := rfl
      omega
    · omega
  · intro r hlong
    rw [prepCaption, if_pos]
    omega

/-- Text of 250 characters used by the C10 witness to exercise
truncation. -/
def longText : String := String.mk (List.replicate 250 'a')

set_option maxRecDepth 4000 in
/-- Closed witness for C10: the formatter equation on a nonempty hit list
and the truncation equation on an over-long caption. -/
theorem claim_format_results_witness :
    (format_retrieval_results [RetrievalResult.mk g0 1] =
      String.intercalate "\n"
        ("Relevant memories (most similar first):" ::
          ([RetrievalResult.mk g0 1].enum.map fun p =>
            natStr (p.1 + 1) ++ ". [score=" ++ fmt4 p.2.score ++ "] \"" ++
              prepCaption p.2.node.text ++ "\""))) ∧
    prepCaption longText =
      (pyStrip longText).take 197 ++ "..." :=
  ⟨claim_format_results.2.1 [RetrievalResult.mk g0 1] (List.cons_ne_nil _ _),
   claim_format_results.2.2.2 (RetrievalResult.mk ⟨"x", longText, [], "", ""⟩ 0)
     (by decide)⟩

/-! ## C1: era classifier -/

/-- Character preceding position i of the scan (prev is the character before
the whole scanned suffix, if any). -/
def prevAt (prev : Option Char) (l : List Char) (i : Nat) : Option Char :=
  if i = 0 then prev else some (l.getD (i - 1) ' ')

/-- Match of the year pattern of get_era_from_date at position i of the full
string. -/
def matchIdx (l : List Char) (i : Nat) : Bool :=
  matchAt (prevAt none l i) (l.drop i)

theorem prevAt_shift (prev : Option Char) (c : Char) (rest : List Char)
    (i : Nat) : prevAt prev (c :: rest) (i + 1) = prevAt (some c) rest i := by
  cases i with
  | zero => rfl
  | succ j => simp [prevAt]

theorem searchYear_none (l : List Char) : ∀ prev,
    searchYear prev l = none ↔
      ∀ i, matchAt (prevAt prev l i) (l.drop i) = false := by
  induction l with
  | nil =>
    intro prev
    constructor
    · intro _ i
      rw [List.drop_nil]
      rfl
    · intro _
      rfl
  | cons c rest ih =>
    intro prev
    rw [searchYear]
    by_cases hm : matchAt prev (c :: rest) = true
    · rw [if_pos hm]
      constructor
      · intro h
        exact Option.noConfusion h
      · intro h
        have h0 := h 0
        rw [show prevAt prev (c :: rest) 0 = prev from rfl,
          List.drop_zero] at h0
        rw [hm] at h0
        exact Bool.noConfusion h0
    · rw [if_neg hm, ih (some c)]
      constructor
      · intro h i
        cases i with
        | zero =>
          rw [show prevAt prev (c :: rest) 0 = prev from rfl, List.drop_zero]
          exact Bool.eq_false_iff.mpr hm
        | succ j =>
          rw [prevAt_shift, List.drop_succ_cons]
          exact h j
      · intro h j
        have h2 := h (j + 1)
        rw [prevAt_shift, List.drop_succ_cons] at h2
        exact h2

theorem searchYear_least (l : List Char) : ∀ (prev : Option Char) (i : Nat),
    matchAt (prevAt prev l i) (l.drop i) = true →
    (∀ j, j < i → matchAt (prevAt prev l j) (l.drop j) = false) →
    searchYear prev l = some ((l.drop i).take 4) := by
  induction l with
  | nil =>
    intro prev i hmi _
    rw [List.drop_nil] at hmi
    exact Bool.noConfusion hmi
  | cons c rest ih =>
    intro prev i hmi hmin
    cases i with
    | zero =>
      rw [show prevAt prev (c :: rest) 0 = prev from rfl,
        List.drop_zero] at hmi
      rw [searchYear, if_pos hmi, List.drop_zero]
    | succ j =>
      have h0 : matchAt prev (c :: rest) = false := by
        have h1 := hmin 0 (Nat.succ_pos j)
        rw [show prevAt prev (c :: rest) 0 = prev from rfl,
          List.drop_zero] at h1
        exact h1
      rw [searchYear, if_neg (by rw [h0]; exact Bool.noConfusion),
        List.drop_succ_cons]
      apply ih (some c) j
      · rw [← prevAt_shift prev]
        exact hmi
      · intro j2 hj2
        have h2 := hmin (j2 + 1) (by omega)
        rw [prevAt_shift, List.drop_succ_cons] at h2
        exact h2

/-- C1 as amended.  get_era_from_date maps the empty string to unknown; when
no four-digit group delimited by word boundaries occurs it returns unknown;
when the leftmost such group sits at position i, the decade is computed from
the group and mapped through ERA_DECADE_MAP with the synthesized fallback;
and the four documented examples hold. -/
theorem claim_era_classifier :
    (get_era_from_date "" = "unknown") ∧
    (∀ s : String, s ≠ "" → (∀ i, matchIdx s.data i = false) →
      get_era_from_date s = "unknown") ∧
    (∀ (s : String) (i : Nat), s ≠ "" → matchIdx s.data i = true →
      (∀ j, j < i → matchIdx s.data j = false) →
      get_era_from_date s =
        (ERA_DECADE_MAP.lookup
            (natStr (intOfDigits ((s.data.drop i).take 4) / 10 * 10))).getD
          (natStr (intOfDigits ((s.data.drop i).take 4) / 10 * 10) ++ "s")) ∧
    (get_era_from_date "1985-06-15" = "1980s") ∧
    (get_era_from_date "bad-date" = "unknown") ∧
    (get_era_from_date "2003" = "2000s") := by
  refine ⟨rfl, ?_, ?_, by decide, by decide, by decide⟩
  · intro s hne hnomatch
    rw [get_era_from_date, if_neg hne,
      (searchYear_none s.data none).mpr hnomatch]
    rfl
  · intro s i hne hmi hmin
    rw [get_era_from_date, if_neg hne,
      searchYear_least s.data none i hmi hmin]
    cases hl : ERA_DECADE_MAP.lookup
        (natStr (intOfDigits ((s.data.drop i).take 4) / 10 * 10)) with
    | none => simp [hl]
    | some label => simp [hl]

/-- C1 counterexample to the claim as stated: the string x1985 contains a
run of exactly four consecutive digits (1985, delimited by non-digits), so
the digit-run rule of the claim yields 1980s, but the code requires word
boundaries around the year group and returns unknown. -/
theorem claim_era_classifier_counterexample :
    claimed_era_from_date "x1985" = "1980s" ∧
    get_era_from_date "x1985" = "unknown" ∧
    get_era_from_date "x1985" ≠ claimed_era_from_date "x1985" :=
  ⟨by decide, by decide, by decide⟩

/-- Closed witness for C1: the leftmost word-boundary match of 12-1985 is at
position 3 and the decade label is computed from it. -/
theorem claim_era_classifier_witness :
    matchIdx "12-1985".data 3 = true ∧
    (∀ j, j < 3 → matchIdx "12-1985".data j = false) ∧
    get_era_from_date "12-1985" =
      (ERA_DECADE_MAP.lookup
          (natStr
            (intOfDigits (("12-1985".data.drop 3).take 4) / 10 * 10))).getD
        (natStr (intOfDigits (("12-1985".data.drop 3).take 4) / 10 * 10) ++
          "s") :=
  ⟨by decide, by decide,
   claim_era_classifier.2.2.1 "12-1985" 3 (by decide) (by decide) (by decide)⟩

/-! ## C5: cluster partition.  Step one: injectivity of cluster labels -/

theorem intOfDigits_append (xs : List Char) (c : Char) :
    intOfDigits (xs ++ [c]) = intOfDigits xs * 10 + (c.toNat - 48) := by
  rw [intOfDigits, intOfDigits, List.foldl_append]
  rfl

theorem digitChar_decode : ∀ r, r < 10 → (Nat.digitChar r).toNat - 48 = r := by
  decide

theorem digitChar_isDigit : ∀ r, r < 10 → (Nat.digitChar r).isDigit = true := by
  decide

theorem natStrAux_decode : ∀ f n, n ≤ f → intOfDigits (natStrAux f n) = n := by
  intro f
  induction f with
  | zero =>
    intro n hn
    interval_cases n
    rfl
  | succ f ih =>
    intro n hn
    cases n with
    | zero => rfl
    | succ m =>
      rw [natStrAux, intOfDigits_append,
        ih ((m + 1) / 10) (by
          have := Nat.div_lt_self (Nat.succ_pos m) (by norm_num : 1 < 10)
          omega),
        digitChar_decode _ (Nat.mod_lt _ (by norm_num))]
      omega

theorem natStrAux_digits : ∀ f n c, c ∈ natStrAux f n → c.isDigit = true := by
  intro f
  induction f with
  | zero =>
    intro n c hc
    cases hc
  | succ f ih =>
    intro n c hc
    cases n with
    | zero => cases hc
    | succ m =>
      rw [natStrAux] at hc
      rcases List.mem_append.mp hc with h | h
      · exact ih _ _ h
      · rw [List.mem_singleton.mp h]
        exact digitChar_isDigit _ (Nat.mod_lt _ (by norm_num))

theorem natStr_digits (n : Nat) : ∀ c ∈ (natStr n).data, c.isDigit = true := by
  intro c hc
  rw [natStr] at hc
  split at hc
  · rcases List.mem_singleton.mp hc with rfl
    decide
  · exact natStrAux_digits _ _ _ hc

theorem natStr_inj {a b : Nat} (h : natStr a = natStr b) : a = b := by
  have hd : (natStr a).data = (natStr b).data := congrArg String.data h
  rw [natStr, natStr] at hd
  by_cases ha : a = 0 <;> by_cases hb : b = 0
  · omega
  · rw [if_pos ha, if_neg hb] at hd
    have hd2 : ['0'] = natStrAux b b := hd
    have hb2 := natStrAux_decode b b le_rfl
    rw [← hd2] at hb2
    have h0 : intOfDigits ['0'] = 0 := rfl
    omega
  · rw [if_neg ha, if_pos hb] at hd
    have hd2 : natStrAux a a = ['0'] := hd
    have ha2 := natStrAux_decode a a le_rfl
    rw [hd2] at ha2
    have h0 : intOfDigits ['0'] = 0 := rfl
    omega
  · rw [if_neg ha, if_neg hb] at hd
    have h1 := natStrAux_decode a a le_rfl
    have h2 := natStrAux_decode b b le_rfl
    have hd2 : natStrAux a a = natStrAux b b := hd
    rw [hd2, h2] at h1
    exact h1.symm

theorem underscore_not_mem_natStr (n : Nat) : '_' ∉ (natStr n).data := by
  intro h
  have := natStr_digits n '_' h
  exact absurd this (by decide)

theorem sep_inj {α : Type} (a : α) :
    ∀ (xs xs' ys ys' : List α), a ∉ xs → a ∉ xs' →
      xs ++ a :: ys = xs' ++ a :: ys' → xs = xs' ∧ ys = ys' := by
  intro xs
  induction xs with
  | nil =>
    intro xs' ys ys' _ hx' h
    cases xs' with
    | nil =>
      simp only [List.nil_append, List.cons.injEq] at h
      exact ⟨rfl, h.2⟩
    | cons c t =>
      simp only [List.nil_append, List.cons_append, List.cons.injEq] at h
      exact absurd (h.1 ▸ List.mem_cons_self c t) hx'
  | cons b t ih =>
    intro xs' ys ys' hx hx' h
    cases xs' with
    | nil =>
      simp only [List.cons_append, List.nil_append, List.cons.injEq] at h
      exact absurd (h.1 ▸ List.mem_cons_self b t) (h.1 ▸ hx)
    | cons c t2 =>
      simp only [List.cons_append, List.cons.injEq] at h
      rcases ih t2 ys ys' (fun hm => hx (List.mem_cons_of_mem b hm))
        (fun hm => hx' (List.mem_cons_of_mem c hm)) h.2 with ⟨h1, h2⟩
      exact ⟨by rw [h.1, h1], h2⟩

theorem mkLabel_data (e : String) (i : Nat) :
    (mkLabel e i).data = "cluster_".data ++ (e.data ++ '_' :: (natStr i).data) := by
  rw [mkLabel]
  simp only [String.data_append]
  simp [List.append_assoc]

theorem mkLabel_inj {e1 e2 : String} {i1 i2 : Nat}
    (h : mkLabel e1 i1 = mkLabel e2 i2) : e1 = e2 ∧ i1 = i2 := by
  have hd := congrArg String.data h
  rw [mkLabel_data, mkLabel_data] at hd
  have hd2 := List.append_cancel_left hd
  have hrev := congrArg List.reverse hd2
  simp only [List.reverse_append, List.reverse_cons] at hrev
  rw [show ∀ l1 l2 : List Char, (l1 ++ ['_']) ++ l2 = l1 ++ '_' :: l2 from
    fun l1 l2 => by simp, show ∀ l1 l2 : List Char,
      (l1 ++ ['_']) ++ l2 = l1 ++ '_' :: l2 from fun l1 l2 => by simp] at hrev
  rcases sep_inj '_' _ _ _ _
    (fun hm => underscore_not_mem_natStr i1 (List.mem_reverse.mp hm))
    (fun hm => underscore_not_mem_natStr i2 (List.mem_reverse.mp hm))
    hrev with ⟨h1, h2⟩
  have he : e1.data = e2.data := List.reverse_injective h2
  have hi : (natStr i1).data = (natStr i2).data := List.reverse_injective h1
  exact ⟨String.ext he, natStr_inj (String.ext hi)⟩

/-! ## C5 step two: the labelling fold produces fresh keys in bucket order -/

/-- Labels assigned to the buckets by the labelling loop, starting from the
counter state c: one label per bucket, in order, with the per-era ordinal
taken from the running counter. -/
def labelsOf (nodes : List MemoryNode) (c : String → Nat) :
    List (String × List String) → List (String × List String)
  | [] => []
  | b :: rest =>
    (mkLabel (eraOfRoot nodes b.1) (c (eraOfRoot nodes b.1)), b.2) ::
      labelsOf nodes
        (fun e => if e = eraOfRoot nodes b.1 then c (eraOfRoot nodes b.1) + 1
          else c e) rest

theorem labelFold_eq (nodes : List MemoryNode) :
    ∀ (bs : List (String × List String)) (c : String → Nat)
      (acc : List (String × List String)),
      (bs.foldl (labelStep nodes) (c, acc)).2 =
        (labelsOf nodes c bs).foldl (fun d p => dictInsert d p.1 p.2) acc := by
  intro bs
  induction bs with
  | nil => intro c acc; rfl
  | cons b rest ih =>
    intro c acc
    rw [List.foldl_cons, labelsOf, List.foldl_cons]
    exact ih _ _

theorem labelsOf_snd (nodes : List MemoryNode) :
    ∀ (bs : List (String × List String)) (c : String → Nat),
      (labelsOf nodes c bs).map Prod.snd = bs.map Prod.snd := by
  intro bs
  induction bs with
  | nil => intro c; rfl
  | cons b rest ih =>
    intro c
    rw [labelsOf, List.map_cons, List.map_cons, ih]

theorem labelsOf_keys_lower (nodes : List MemoryNode) :
    ∀ (bs : List (String × List String)) (c : String → Nat),
      ∀ p ∈ labelsOf nodes c bs, ∃ e i, p.1 = mkLabel e i ∧ c e ≤ i := by
  intro bs
  induction bs with
  | nil =>
    intro c p hp
    cases hp
  | cons b rest ih =>
    intro c p hp
    rcases List.mem_cons.mp hp with rfl | hp2
    · exact ⟨eraOfRoot nodes b.1, c (eraOfRoot nodes b.1), rfl, le_rfl⟩
    · rcases ih _ p hp2 with ⟨e, i, hpe, hci⟩
      refine ⟨e, i, hpe, le_trans ?_ hci⟩
      by_cases he : e = eraOfRoot nodes b.1
      · rw [if_pos he, he]
        omega
      · rw [if_neg he]

theorem labelsOf_keys_nodup (nodes : List MemoryNode) :
    ∀ (bs : List (String × List String)) (c : String → Nat),
      ((labelsOf nodes c bs).map Prod.fst).Nodup := by
  intro bs
  induction bs with
  | nil => intro c; exact List.nodup_nil
  | cons b rest ih =>
    intro c
    rw [labelsOf, List.map_cons, List.nodup_cons]
    refine ⟨?_, ih _⟩
    intro hmem
    rcases List.mem_map.mp hmem with ⟨p, hp, hpl⟩
    rcases labelsOf_keys_lower nodes rest _ p hp with ⟨e, i, hpe, hci⟩
    rw [hpe] at hpl
    rcases mkLabel_inj hpl with ⟨rfl, hidx⟩
    rw [if_pos rfl] at hci
    omega

theorem dictInsert_fresh (key : String) (v : List String) :
    ∀ d : List (String × List String), key ∉ d.map Prod.fst →
      dictInsert d key v = d ++ [(key, v)] := by
  intro d
  induction d with
  | nil => intro _; rfl
  | cons p rest ih =>
    intro hk
    rw [dictInsert]
    rw [List.map_cons] at hk
    rw [if_neg (fun he => hk (by rw [← he]; exact List.mem_cons_self _ _)),
      ih (fun hm => hk (List.mem_cons_of_mem _ hm))]
    rfl

theorem foldl_dictInsert_fresh :
    ∀ (ps acc : List (String × List String)),
      (ps.map Prod.fst).Nodup →
      (∀ k ∈ ps.map Prod.fst, k ∉ acc.map Prod.fst) →
      ps.foldl (fun d p => dictInsert d p.1 p.2) acc = acc ++ ps := by
  intro ps
  induction ps with
  | nil => intro acc _ _; rw [List.foldl_nil, List.append_nil]
  | cons p rest ih =>
    intro acc hnd hfresh
    rw [List.map_cons] at hnd
    rcases List.nodup_cons.mp hnd with ⟨hp1, hrest⟩
    rw [List.foldl_cons,
      dictInsert_fresh p.1 p.2 acc (hfresh p.1 (by simp)),
      ih (acc ++ [(p.1, p.2)]) hrest ?_]
    · simp
    · intro k hk
      rw [List.map_append]
      intro hmem
      rcases List.mem_append.mp hmem with h | h
      · exact hfresh k (by simp [hk]) h
      · have hkp : k = p.1 := by simpa using h
        rw [hkp] at hk
        exact hp1 hk

/-! ## C5 step three: bucket grouping preserves the node ids -/

theorem bucketAdd_join (key v : String) :
    ∀ b : List (String × List String),
      (((bucketAdd b key v).map Prod.snd).flatten).Perm
        ((b.map Prod.snd).flatten ++ [v]) := by
  intro b
  induction b with
  | nil => simp [bucketAdd]
  | cons p rest ih =>
    rw [bucketAdd]
    by_cases hk : p.1 = key
    · rw [if_pos hk]
      simp only [List.map_cons, List.flatten_cons]
      rw [List.append_assoc, List.append_assoc]
      exact List.Perm.append_left p.2 List.perm_append_comm
    · rw [if_neg hk]
      simp only [List.map_cons, List.flatten_cons]
      rw [List.append_assoc]
      exact List.Perm.append_left p.2 ih

theorem groupFold_join (fuel : Nat) :
    ∀ (ids : List String)
      (st : (String → String) × List (String × List String)),
      (((ids.foldl (fun st nid =>
            let fr := ufFind fuel st.1 nid
            (fr.2, bucketAdd st.2 fr.1 nid)) st).2).map Prod.snd).flatten.Perm
        ((st.2.map Prod.snd).flatten ++ ids) := by
  intro ids
  induction ids with
  | nil =>
    intro st
    rw [List.foldl_nil, List.append_nil]
  | cons nid rest ih =>
    intro st
    rw [List.foldl_cons]
    refine (ih _).trans ?_
    refine (List.Perm.append_right rest (bucketAdd_join _ _ st.2)).trans ?_
    rw [List.append_assoc]
    exact List.Perm.refl _

theorem labelFold_from_empty (nodes : List MemoryNode)
    (B : List (String × List String)) :
    (B.foldl (labelStep nodes) ((fun _ => 0), [])).2 =
      labelsOf nodes (fun _ => 0) B := by
  rw [labelFold_eq,
    foldl_dictInsert_fresh _ [] (labelsOf_keys_nodup nodes B _)
      (by intro k _ hk; simp at hk),
    List.nil_append]

/-- C5. On nodes with pairwise distinct ids, the member lists of the cluster
mapping returned by find_memory_clusters are pairwise disjoint, each is
duplicate-free, and together they are a permutation of the full node id
list: every node belongs to exactly one cluster. -/
theorem claim_cluster_partition (nodes : List MemoryNode)
    (edges : List MemoryEdge)
    (hnd : (nodes.map fun n => n.id).Nodup) :
    (((find_memory_clusters nodes edges).map Prod.snd).flatten).Perm
        (nodes.map fun n => n.id) ∧
    (find_memory_clusters nodes edges).Pairwise
      (fun a b => ∀ x, x ∈ a.2 → x ∉ b.2) ∧
    (∀ m ∈ find_memory_clusters nodes edges, m.2.Nodup) := by
  have hform : find_memory_clusters nodes edges =
      labelsOf nodes (fun _ => 0)
        (((nodes.map fun n => n.id).foldl
            (fun st nid =>
              let fr := ufFind (nodes.map fun n => n.id).length st.1 nid
              (fr.2, bucketAdd st.2 fr.1 nid))
            (edges.foldl
              (fun p e =>
                if e.source_id ∈ (nodes.map fun n => n.id) ∧
                    e.target_id ∈ (nodes.map fun n => n.id) then
                  ufUnion (nodes.map fun n => n.id).length p e.source_id
                    e.target_id
                else p)
              makeUnionFind, [])).2) := by
    rw [find_memory_clusters]
    exact labelFold_from_empty nodes _
  have hperm : (((find_memory_clusters nodes edges).map Prod.snd).flatten).Perm
      (nodes.map fun n => n.id) := by
    rw [hform, labelsOf_snd]
    refine (groupFold_join _ _ _).trans ?_
    rw [show (([] : List (String × List String)).map Prod.snd).flatten = []
      from rfl, List.nil_append]
  have hflat : (((find_memory_clusters nodes edges).map Prod.snd).flatten).Nodup :=
    hperm.symm.nodup hnd
  rcases List.nodup_flatten.mp hflat with ⟨hmem, hdisj⟩
  refine ⟨hperm, ?_, ?_⟩
  · have := List.pairwise_map.mp hdisj
    refine this.imp ?_
    intro a b hab x hxa hxb
    exact hab hxa hxb
  · intro m hm
    exact hmem m.2 (List.mem_map.mpr ⟨m, hm, rfl⟩)

/-- Closed witness for C5 on the Scenario 1 graph. -/
theorem claim_cluster_partition_witness :
    (((find_memory_clusters [g0, g1, g2]
          [MemoryEdge.mk "n0" "n1" 1]).map Prod.snd).flatten).Perm
        ([g0, g1, g2].map fun n => n.id) ∧
    (find_memory_clusters [g0, g1, g2]
        [MemoryEdge.mk "n0" "n1" 1]).Pairwise
      (fun a b => ∀ x, x ∈ a.2 → x ∉ b.2) ∧
    (∀ m ∈ find_memory_clusters [g0, g1, g2] [MemoryEdge.mk "n0" "n1" 1],
      m.2.Nodup) :=
  claim_cluster_partition [g0, g1, g2] [MemoryEdge.mk "n0" "n1" 1] (by decide)

end MemoryBridge
